import Mathlib

/-!
Verification of the topical-authority-checker core pipeline (src/app.py):
cost estimation and budget gating, keyword discovery merge, filter engine,
CTR model, SERP traffic aggregation, report building and session reset.

Python dicts are modelled as insertion-ordered association lists
(`List (String × β)`): updating an existing key keeps its position,
a new key is appended at the end, exactly as CPython dicts behave.
Python floats are modelled as exact rationals `ℚ`; decimal literals such
as `0.01` are exact in `ℚ`.  NaN (the result of the float division `0/0`)
is modelled by `Option ℚ` being `none`.
-/

namespace TopicAuthority

/-- Lookup in a Python-dict model: value of the first (hence only) entry
whose key is `k`, as `d.get(k)`. -/
def lookupD {β : Type} (m : List (String × β)) (k : String) : Option β :=
  (m.find? (fun p => p.fst == k)).map (fun p => p.snd)

/-- Python-dict assignment `m[k] = v`: replace the entry in place if the key
exists, else append at the end (CPython insertion order). -/
def setD {β : Type} : List (String × β) → String → β → List (String × β)
  | [], k, v => [(k, v)]
  | p :: ps, k, v => if p.fst == k then (k, v) :: ps else p :: setD ps k v

/-- Python-dict deletion `del m[k]`. -/
def delD {β : Type} (m : List (String × β)) (k : String) : List (String × β) :=
  m.filter (fun p => !(p.fst == k))

/-- Python `text.lower()`, modelled character-by-character (for the ASCII
text the claims are about this agrees with CPython). -/
def lowerStr (s : String) : String :=
  { data := s.data.map Char.toLower }

/-- Python `neg in text` for strings: substring containment. -/
def containsSub (neg text : String) : Bool :=
  decide (neg.data <:+: text.data)

/-- app.py lines 674-679, the `is_clean` helper: lower-case the text, return
False iff some negative term occurs in it as a substring. -/
def is_clean (negatives : List String) (text : String) : Bool :=
  negatives.all (fun neg => !(containsSub neg (lowerStr text)))

/-- app.py lines 937-941 (inline negative-domain loop in `main`): a domain is
excluded iff for some parsed negative domain `nd`, `domain == nd` or
`domain.endswith("." + nd)`.  Note the raw `domain` from the SERP item is
compared as-is (it is not lower-cased by the code). -/
def is_domain_excluded (domain : String) (neg_doms : List String) : Bool :=
  neg_doms.any (fun nd => domain == nd || ("." ++ nd).data.isSuffixOf domain.data)

/-- app.py line 896: negative domains are stripped and lower-cased when
parsed from the comma-separated text area. -/
def parse_neg_doms (raw : String) : List String :=
  ((raw.splitOn ",").map (fun d => d.trim)).filter (fun d => !(d == "")) |>.map
    (fun d => lowerStr d)

/-- app.py lines 125-130, the `CTR_CURVE` dict followed by line 949's
`CTR_CURVE.get(rank, 0)`: click-through rate by 1-based rank, 0 outside 1-20. -/
def ctr_for_rank (rank : Int) : ℚ :=
  if rank = 1 then 0.30 else if rank = 2 then 0.15 else if rank = 3 then 0.10
  else if rank = 4 then 0.06 else if rank = 5 then 0.04 else if rank = 6 then 0.03
  else if rank = 7 then 0.025 else if rank = 8 then 0.02 else if rank = 9 then 0.015
  else if rank = 10 then 0.01 else if rank = 11 then 0.009 else if rank = 12 then 0.008
  else if rank = 13 then 0.007 else if rank = 14 then 0.006 else if rank = 15 then 0.005
  else if rank = 16 then 0.004 else if rank = 17 then 0.003 else if rank = 18 then 0.002
  else if rank = 19 then 0.001 else if rank = 20 then 0.001 else 0

/-- The dict returned by app.py `estimate_total_cost` (lines 153-171). -/
structure CostEstimate where
  keyword_cost : ℚ
  serp_cost : ℚ
  serp_cost_per_kw : ℚ
  total : ℚ
deriving Repr, DecidableEq

/-- app.py lines 153-171: `estimate_total_cost(num_keywords_to_fetch,
num_keywords_to_analyze, serp_depth)`.  `math.ceil(n / 700)` is the ceiling
of the exact quotient. -/
def estimate_total_cost (num_keywords_to_fetch num_keywords_to_analyze : ℕ)
    (serp_depth : ℕ) : CostEstimate :=
  let keyword_requests : ℤ := ⌈(num_keywords_to_fetch : ℚ) / 700⌉
  let keyword_cost : ℚ := (keyword_requests : ℚ) * 0.01
  let serp_multiplier : ℚ := (serp_depth : ℚ) / 10
  let serp_cost_per_kw : ℚ := 0.0006 * serp_multiplier
  let total_serp_cost : ℚ := (num_keywords_to_analyze : ℚ) * serp_cost_per_kw
  { keyword_cost := keyword_cost
    serp_cost := total_serp_cost
    serp_cost_per_kw := serp_cost_per_kw
    total := keyword_cost + total_serp_cost }

/-- app.py lines 603-612 in `main`: the configuration-stage keyword cost,
summed over the enabled discovery sources (each of the two Google-Ads
sources is billed `ceil(num_keywords_fetch / 700) * 0.01` independently;
autocomplete is billed `0.0002` per seed keyword). -/
def configKeywordCost (useKK useKI useAuto : Bool) (num_keywords_fetch : ℕ)
    (numSeeds : ℕ) : ℚ :=
  (if useKK then ((⌈(num_keywords_fetch : ℚ) / 700⌉ : ℤ) : ℚ) * 0.01 else 0)
  + (if useKI then ((⌈(num_keywords_fetch : ℚ) / 700⌉ : ℤ) : ℚ) * 0.01 else 0)
  + (if useAuto then 0.0002 * (numSeeds : ℚ) else 0)

/-- What the configuration stage of `main` shows and does around the
keyword-discovery budget (app.py lines 629-635 and 652-666). -/
structure KeywordStage where
  statusBlocked : Bool
  fetchExecuted : Bool
deriving Repr, DecidableEq

/-- app.py lines 629-635 display a "BLOCKED" status and an error whenever
`costs['total'] > max_cost`, while lines 655-666 run the keyword-discovery
fetch whenever the button is clicked, at least one seed keyword parsed and at
least one source is selected — the cost comparison does not guard the fetch. -/
def keywordStage (costTotal maxCost : ℚ) (fetchClicked seedsNonempty
    anySourceSelected : Bool) : KeywordStage :=
  { statusBlocked := decide (maxCost < costTotal)
    fetchExecuted := fetchClicked && seedsNonempty && anySourceSelected }

/-- app.py lines 883-889: whether the SERP fetch stage executes.  When
`total_serp_cost > max_cost` only an error is rendered and the run button is
never offered; otherwise the fetch runs iff the user confirms and clicks. -/
def serpStageRuns (totalSerpCost maxCost : ℚ) (confirmChecked runClicked : Bool) :
    Bool :=
  if maxCost < totalSerpCost then false
  else confirmChecked && runClicked

/-- A keyword observation as normalized from a discovery-source response:
`{'keyword': ..., 'search_volume': ...}` (app.py lines 249-253, 688-690). -/
structure Obs where
  keyword : String
  search_volume : ℕ
deriving Repr, DecidableEq

/-- One discovery-source response inside the seed loop of `main`:
`vol` for Keywords-for-Keywords / Keyword-Ideas responses (keyword plus
search volume), `auto` for autocomplete responses (keyword text only). -/
inductive SourceItems where
  | vol (items : List Obs)
  | auto (keywords : List String)
deriving Repr, DecidableEq

/-- The value a dict entry takes after one max-merge step: a fresh key gets
the offered volume, an existing key the maximum of old and offered. -/
def updMax (o : Option ℕ) (v : ℕ) : ℕ :=
  match o with
  | none => v
  | some w => Nat.max w v

/-- The client-side filter of app.py lines 693 and 708 for a volume-source
observation: `vol and vol >= 10 and is_clean(keyword_text)`. -/
def acceptsVol (negatives : List String) (o : Obs) : Bool :=
  o.search_volume != 0 && decide (10 ≤ o.search_volume)
    && is_clean negatives o.keyword

/-- The non-membership-independent part of the filter of app.py line 728 for
an autocomplete keyword: `kw_text and is_clean(kw_text)`. -/
def acceptsAuto (negatives : List String) (k : String) : Bool :=
  !(k == "") && is_clean negatives k

/-- app.py lines 687-695 / 703-710, processing one volume-source item:
`if vol and vol >= 10 and is_clean(keyword_text): if keyword_text not in
all_keywords or vol > all_keywords[keyword_text]: all_keywords[keyword_text] = vol`. -/
def stepVol (negatives : List String) (m : List (String × ℕ)) (o : Obs) :
    List (String × ℕ) :=
  if acceptsVol negatives o then
    match lookupD m o.keyword with
    | none => setD m o.keyword o.search_volume
    | some w => if w < o.search_volume then setD m o.keyword o.search_volume else m
  else m

/-- app.py lines 727-729, processing one autocomplete keyword:
`if kw_text and kw_text not in all_keywords and is_clean(kw_text):
all_keywords[kw_text] = 0` (the conjuncts commute; the not-in test is kept
separate from the text-only conditions). -/
def stepAuto (negatives : List String) (m : List (String × ℕ)) (k : String) :
    List (String × ℕ) :=
  if acceptsAuto negatives k && (lookupD m k).isNone then
    setD m k 0
  else m

/-- Merge one discovery-source response into the `all_keywords` dict. -/
def mergeSource (negatives : List String) (m : List (String × ℕ)) :
    SourceItems → List (String × ℕ)
  | .vol items => items.foldl (stepVol negatives) m
  | .auto kws => kws.foldl (stepAuto negatives) m

/-- app.py lines 668-729: the `all_keywords` dict after folding every
source response of every seed keyword, in order, starting from `{}`. -/
def mergeAll (negatives : List String) (sources : List SourceItems) :
    List (String × ℕ) :=
  sources.foldl (mergeSource negatives) []

/-- Insert keeping a `≤`-by-key element after all already-placed elements it
does not strictly beat; used to model a descending sort on one column. -/
def insDescBy {α : Type} (key : α → ℚ) (a : α) : List α → List α
  | [] => [a]
  | b :: bs => if key a ≤ key b then b :: insDescBy key a bs else a :: b :: bs

/-- One admissible ordering of `pandas.sort_values(col, ascending=False)`:
the output is some permutation of the input that is descending on `key`
(pandas' default quicksort leaves the order of ties unspecified). -/
def sortDescBy {α : Type} (key : α → ℚ) (l : List α) : List α :=
  l.foldr (insDescBy key) []

/-- app.py lines 735-739: the final keyword dataframe — entries of
`all_keywords` with `v >= 10 or (v == 0 and use_autocomplete)`, sorted by
search volume descending. -/
def finalKeywords (negatives : List String) (sources : List SourceItems)
    (useAuto : Bool) : List (String × ℕ) :=
  sortDescBy (fun p => (p.snd : ℚ))
    ((mergeAll negatives sources).filter
      (fun p => decide (10 ≤ p.snd) || (p.snd == 0 && useAuto)))

/-- One ranked SERP result item (app.py lines 931-948). -/
structure SerpItem where
  type : String
  domain : String
  url : String
  title : String
  rank_group : Int
deriving Repr, DecidableEq

/-- One task result of a SERP batch response: the analyzed keyword and its
ranked items (app.py lines 925-931); `none` models `task['result']` being
empty/null. -/
structure TaskResult where
  keyword : String
  items : List SerpItem
deriving Repr, DecidableEq

/-- One row of `detailed_serp_data` (app.py lines 953-962). -/
structure DetailRow where
  keyword : String
  search_volume : ℕ
  domain : String
  url : String
  title : String
  position : Int
  ctr : ℚ
  estimated_traffic : ℚ
deriving Repr, DecidableEq

/-- The accumulator state of the SERP aggregation loop: `all_domain_traffic`,
`total_market_traffic` and `detailed_serp_data` (app.py lines 898-900). -/
structure AggState where
  domainTraffic : List (String × ℚ)
  totalTraffic : ℚ
  details : List DetailRow
deriving Repr, DecidableEq

/-- The empty aggregation state (app.py lines 898-900). -/
def initAgg : AggState := { domainTraffic := [], totalTraffic := 0, details := [] }

/-- app.py lines 931-965: process one SERP item for a keyword with the given
search volume: skip non-organic items and negative domains, else accumulate
`volume * CTR_CURVE.get(rank, 0)` into the domain's traffic and the total,
and append a detail row (even when the traffic is zero). -/
def processItem (neg_doms : List String) (keyword : String) (volume : ℕ)
    (st : AggState) (item : SerpItem) : AggState :=
  if item.type == "organic" then
    if is_domain_excluded item.domain neg_doms then st
    else
      let ctr := ctr_for_rank item.rank_group
      let traffic := (volume : ℚ) * ctr
      { domainTraffic :=
          setD st.domainTraffic item.domain
            ((lookupD st.domainTraffic item.domain).getD 0 + traffic)
        totalTraffic := st.totalTraffic + traffic
        details := st.details ++
          [{ keyword := keyword, search_volume := volume, domain := item.domain
             url := item.url, title := item.title, position := item.rank_group
             ctr := ctr, estimated_traffic := traffic }] }
  else st

/-- app.py lines 925-965: process one task of a batch response;
`if task['result']:` skips a task with an empty result. -/
def processTask (volume_map : List (String × ℕ)) (neg_doms : List String)
    (st : AggState) : Option TaskResult → AggState
  | none => st
  | some r =>
    r.items.foldl (processItem neg_doms r.keyword ((lookupD volume_map r.keyword).getD 0)) st

/-- Process all tasks of one successful batch response. -/
def processBatch (volume_map : List (String × ℕ)) (neg_doms : List String)
    (st : AggState) (batch : List (Option TaskResult)) : AggState :=
  batch.foldl (processTask volume_map neg_doms) st

/-- app.py lines 910-968: the batch loop; a failed `fetch_serp_batch` returns
`None` (lines 293-299) and `if serp_data and 'tasks' in serp_data:` then
skips that batch, the loop continues with the next one. -/
def runBatches (volume_map : List (String × ℕ)) (neg_doms : List String)
    (fetched : List (Option (List (Option TaskResult)))) : AggState :=
  fetched.foldl
    (fun st ob =>
      match ob with
      | none => st
      | some b => processBatch volume_map neg_doms st b)
    initAgg

/-- The same aggregation over a list of successful batch responses only. -/
def aggBatches (volume_map : List (String × ℕ)) (neg_doms : List String)
    (batches : List (List (Option TaskResult))) : AggState :=
  batches.foldl (processBatch volume_map neg_doms) initAgg

/-- One row of the results dataframe before ranking: domain, estimated
traffic and share of voice; the share is `none` when the float division
`traffic / total * 100` is not a number (total = 0). -/
def shareRows (traffic_data : List (String × ℚ)) (total : ℚ) :
    List (String × ℚ × Option ℚ) :=
  traffic_data.map
    (fun p => (p.fst, p.snd, if total = 0 then none else some (p.snd / total * 100)))

/-- One row of the ranked results dataframe (app.py lines 987-994). -/
structure ShareRow where
  rank : ℕ
  domain : String
  traffic : ℚ
  share : Option ℚ
deriving Repr, DecidableEq

/-- Attach 1-based ranks in order (app.py line 993). -/
def addRank (l : List (String × ℚ × Option ℚ)) : List ShareRow :=
  l.enum.map (fun q => { rank := q.fst + 1, domain := q.snd.fst
                         traffic := q.snd.snd.fst, share := q.snd.snd.snd })

/-- app.py lines 979-994: the results section runs only when
`st.session_state.get('serp_results')` is truthy (a non-empty traffic dict);
it then adds the share column, sorts by estimated traffic descending and
attaches 1-based ranks. -/
def reportSection (traffic_data : List (String × ℚ)) (total : ℚ) :
    List ShareRow :=
  if traffic_data.isEmpty then []
  else addRank (sortDescBy (fun q => q.snd.fst) (shareRows traffic_data total))

/-- app.py lines 1146-1151, the Start-New-Analysis handler:
`for key in list(st.session_state.keys()): if key not in ['user', 'pass']:
del st.session_state[key]`. -/
def startNewAnalysis {β : Type} (s : List (String × β)) : List (String × β) :=
  (s.map Prod.fst).foldl
    (fun acc k => if k == "user" || k == "pass" then acc else delD acc k) s

/-- The volumes a single source response offers to the merged dict for the
keyword `k`, in order: the accepted volume-source volumes, or a 0 for each
accepted autocomplete occurrence of `k`. -/
def acceptedVols (negatives : List String) (k : String) : SourceItems → List ℕ
  | .vol items =>
    (items.filter (fun o => acceptsVol negatives o && o.keyword == k)).map
      (fun o => o.search_volume)
  | .auto kws =>
    (kws.filter (fun s => acceptsAuto negatives s && s == k)).map (fun _ => 0)

/-- All volumes offered for keyword `k` across a list of source responses,
in source order. -/
def acceptedAll (negatives : List String) (sources : List SourceItems)
    (k : String) : List ℕ :=
  sources.foldr (fun s acc => acceptedVols negatives k s ++ acc) []

/-- Folding a list of offered volumes into an optional dict entry by
max-merge steps. -/
def combineO (o : Option ℕ) (vs : List ℕ) : Option ℕ :=
  vs.foldl (fun acc v => some (updMax acc v)) o

/-- Whether a source response contains an accepted volume-source
observation of keyword `k`. -/
def volOffers (negatives : List String) (k : String) : SourceItems → Bool
  | .vol items => items.any (fun o => acceptsVol negatives o && o.keyword == k)
  | .auto _ => false

/-- Whether a source response contains an accepted autocomplete occurrence
of keyword `k`. -/
def autoOffers (negatives : List String) (k : String) : SourceItems → Bool
  | .auto kws => kws.any (fun s => acceptsAuto negatives s && s == k)
  | .vol _ => false

/-! ### Helper lemmas about the dict model -/

theorem lookupD_nil {β : Type} (k : String) : lookupD ([] : List (String × β)) k = none := rfl

theorem lookupD_setD {β : Type} (m : List (String × β)) (k k' : String) (v : β) :
    lookupD (setD m k v) k' = if k' = k then some v else lookupD m k' := by
  induction m with
  | nil =>
    by_cases h : k' = k
    · simp [setD, lookupD, List.find?, h]
    · have hk : (k == k') = false := by
        simp [beq_eq_false_iff_ne]
        intro h2
        exact h h2.symm
      simp [setD, lookupD, List.find?, hk, h]
  | cons p ps ih =>
    by_cases hp : p.fst = k
    · simp only [setD, hp, beq_self_eq_true, if_true]
      by_cases h : k' = k
      · simp [lookupD, List.find?, h]
      · have hk : (k == k') = false := by
          simp [beq_eq_false_iff_ne]
          intro h2
          exact h h2.symm
        have hpk : (p.fst == k') = false := by
          simp [beq_eq_false_iff_ne, hp]
          intro h2
          exact h h2.symm
        simp [lookupD, List.find?, hk, hpk, h]
    · have hpb : (p.fst == k) = false := by simp [beq_eq_false_iff_ne, hp]
      simp only [setD, hpb, Bool.false_eq_true, if_false]
      by_cases h : k' = p.fst
      · have hne : ¬ k' = k := fun h2 => hp (h ▸ h2)
        simp [lookupD, List.find?, h, hne, hp]
      · have hpk : (p.fst == k') = false := by
          simp [beq_eq_false_iff_ne]
          intro h2
          exact h h2.symm
        simp only [lookupD, List.find?, hpk]
        exact ih

theorem keys_setD_of_mem {β : Type} (m : List (String × β)) (k : String) (v : β)
    (h : k ∈ m.map Prod.fst) : (setD m k v).map Prod.fst = m.map Prod.fst := by
  induction m with
  | nil => simp at h
  | cons p ps ih =>
    by_cases hp : p.fst = k
    · simp [setD, hp]
    · have hpb : (p.fst == k) = false := by simp [beq_eq_false_iff_ne, hp]
      simp only [List.map_cons, List.mem_cons] at h
      rcases h with h | h
      · exact absurd h.symm hp
      · simp [setD, hpb, ih h]

theorem setD_of_not_mem {β : Type} (m : List (String × β)) (k : String) (v : β)
    (h : ¬ k ∈ m.map Prod.fst) : setD m k v = m ++ [(k, v)] := by
  induction m with
  | nil => simp [setD]
  | cons p ps ih =>
    simp only [List.map_cons, List.mem_cons, not_or] at h
    have hpb : (p.fst == k) = false := by
      simp [beq_eq_false_iff_ne]
      intro h2
      exact h.1 h2.symm
    simp [setD, hpb, ih h.2]

theorem nodup_keys_setD {β : Type} (m : List (String × β)) (k : String) (v : β)
    (h : (m.map Prod.fst).Nodup) : ((setD m k v).map Prod.fst).Nodup := by
  by_cases hk : k ∈ m.map Prod.fst
  · rw [keys_setD_of_mem m k v hk]
    exact h
  · rw [setD_of_not_mem m k v hk]
    rw [List.map_append, List.nodup_append]
    refine ⟨h, List.nodup_singleton k, ?_⟩
    intro a ha hb
    simp at hb
    exact hk (hb ▸ ha)

theorem lookupD_eq_some_of_mem {β : Type} (m : List (String × β)) (p : String × β)
    (hnd : (m.map Prod.fst).Nodup) (hm : p ∈ m) : lookupD m p.fst = some p.snd := by
  induction m with
  | nil => simp at hm
  | cons q qs ih =>
    simp only [List.map_cons, List.nodup_cons] at hnd
    rcases List.mem_cons.mp hm with h | h
    · subst h
      simp [lookupD, List.find?]
    · have hne : (q.fst == p.fst) = false := by
        simp [beq_eq_false_iff_ne]
        intro h2
        exact hnd.1 (h2 ▸ List.mem_map.mpr ⟨p, h, rfl⟩)
      simp only [lookupD, List.find?, hne]
      exact ih hnd.2 h

/-! ### Helper lemmas about the descending-sort model -/

theorem insDescBy_perm {α : Type} (key : α → ℚ) (a : α) (l : List α) :
    (insDescBy key a l).Perm (a :: l) := by
  induction l with
  | nil => exact List.Perm.refl _
  | cons b bs ih =>
    by_cases h : key a ≤ key b
    · simp only [insDescBy, h, if_true]
      exact (ih.cons b).trans (List.Perm.swap a b bs)
    · simp only [insDescBy, h, if_false]
      exact List.Perm.refl _

theorem sortDescBy_perm {α : Type} (key : α → ℚ) (l : List α) :
    (sortDescBy key l).Perm l := by
  induction l with
  | nil => exact List.Perm.refl _
  | cons a as ih =>
    exact (insDescBy_perm key a (sortDescBy key as)).trans (ih.cons a)

theorem mem_sortDescBy {α : Type} (key : α → ℚ) (l : List α) (a : α) :
    a ∈ sortDescBy key l ↔ a ∈ l :=
  (sortDescBy_perm key l).mem_iff

theorem length_sortDescBy {α : Type} (key : α → ℚ) (l : List α) :
    (sortDescBy key l).length = l.length :=
  (sortDescBy_perm key l).length_eq

/-! ### Claim C5 — CTR model -/

/-- C5: for every integer rank `r` with `1 ≤ r ≤ 20`, `ctr_for_rank` is
non-increasing as `r` increases, `ctr_for_rank 1 = 0.30` and
`ctr_for_rank 19 = ctr_for_rank 20 = 0.001`; every rank outside 1..20 yields
0. -/
theorem c5_ctr_curve :
    (∀ r : ℤ, 1 ≤ r → r ≤ 19 → ctr_for_rank (r + 1) ≤ ctr_for_rank r) ∧
    ctr_for_rank 1 = 0.30 ∧ ctr_for_rank 19 = 0.001 ∧ ctr_for_rank 20 = 0.001 ∧
    (∀ r : ℤ, r < 1 ∨ 20 < r → ctr_for_rank r = 0) := by
  refine ⟨?_, by norm_num [ctr_for_rank], by norm_num [ctr_for_rank],
    by norm_num [ctr_for_rank], ?_⟩
  · intro r h1 h2
    interval_cases r <;> norm_num [ctr_for_rank]
  · intro r h
    simp only [ctr_for_rank]
    iterate 20 rw [if_neg (by omega)]

/-- Concrete instantiation of `c5_ctr_curve`: the curve is non-increasing
from rank 5 to rank 6. -/
theorem c5_ctr_curve_witness : ctr_for_rank 6 ≤ ctr_for_rank 5 :=
  c5_ctr_curve.1 5 (by norm_num) (by norm_num)

/-! ### Claim C7 — cost estimator -/

/-- C7: `estimate_total_cost` computes
`keyword_cost = ceil(num_keywords_to_fetch / 700) * 0.01` (the cost of one
discovery source), `serp_cost = num_keywords_to_analyze * 0.0006 *
(serp_depth / 10)` and `total = keyword_cost + serp_cost`; the
configuration stage bills each enabled Google-Ads discovery source
independently, so two enabled sources cost twice one; for
`num_keywords_to_fetch = 700`, `num_keywords_to_analyze = 100`,
`serp_depth = 10` and one enabled source the costs are exactly
`0.01`, `0.06` and `0.07`. -/
theorem c7_cost_estimate :
    (estimate_total_cost 700 100 10).keyword_cost = 0.01 ∧
    (estimate_total_cost 700 100 10).serp_cost = 0.06 ∧
    (estimate_total_cost 700 100 10).total = 0.07 ∧
    (∀ n a d : ℕ,
      (estimate_total_cost n a d).keyword_cost
          = ((⌈(n : ℚ) / 700⌉ : ℤ) : ℚ) * 0.01 ∧
      (estimate_total_cost n a d).serp_cost = (a : ℚ) * 0.0006 * ((d : ℚ) / 10) ∧
      (estimate_total_cost n a d).total
          = (estimate_total_cost n a d).keyword_cost
            + (estimate_total_cost n a d).serp_cost) ∧
    (∀ n s : ℕ,
      configKeywordCost true false false n s
          = ((⌈(n : ℚ) / 700⌉ : ℤ) : ℚ) * 0.01 ∧
      configKeywordCost true true false n s
          = 2 * (((⌈(n : ℚ) / 700⌉ : ℤ) : ℚ) * 0.01)) := by
  refine ⟨by norm_num [estimate_total_cost], by norm_num [estimate_total_cost],
    by norm_num [estimate_total_cost], ?_, ?_⟩
  · intro n a d
    refine ⟨rfl, ?_, rfl⟩
    simp only [estimate_total_cost]
    ring
  · intro n s
    constructor
    · simp [configKeywordCost]
    · simp only [configKeywordCost]
      norm_num
      ring

/-- Concrete instantiation of `c7_cost_estimate`: the serp-cost formula at
`(50, 40, 20)`. -/
theorem c7_cost_estimate_witness :
    (estimate_total_cost 50 40 20).serp_cost = (40 : ℚ) * 0.0006 * ((20 : ℚ) / 10) :=
  (c7_cost_estimate.2.2.2.1 50 40 20).2.1

/-! ### Claim C1 — budget guardrail -/

/-- C1 (against the code): with an estimated keyword cost of 0.01 and a
ceiling of 0, the configuration stage shows the BLOCKED status
(`costs['total'] > max_cost`), yet a click on the fetch button still
executes the keyword-discovery stage — the cost comparison guards only the
SERP stage, where a cost strictly above the ceiling prevents the run and a
cost exactly equal to the ceiling is allowed. -/
theorem c1_budget_gate :
    (keywordStage 0.01 0 true true true).statusBlocked = true ∧
    (keywordStage 0.01 0 true true true).fetchExecuted = true ∧
    (∀ c m : ℚ, ∀ conf run : Bool, m < c → serpStageRuns c m conf run = false) ∧
    (∀ c : ℚ, serpStageRuns c c true true = true) := by
  refine ⟨by norm_num [keywordStage], rfl, ?_, ?_⟩
  · intro c m conf run h
    simp [serpStageRuns, h]
  · intro c
    simp [serpStageRuns]

/-- Concrete instantiation of `c1_budget_gate`: a SERP cost of 1 with a
ceiling of 0 blocks the run even with both confirmations given. -/
theorem c1_budget_gate_witness : serpStageRuns 1 0 true true = false :=
  c1_budget_gate.2.2.1 1 0 true true (by norm_num)

/-! ### Claim C3 — negative-domain exclusion -/

/-- C3 counterexample: the claim requires exclusion whenever the
lower-cased domain equals a negative domain, but the code compares the raw
domain string: `"Amazon.com"` lower-cases to the negative domain
`"amazon.com"` and is nevertheless not excluded. -/
theorem c3_counterexample :
    (lowerStr "Amazon.com" = "amazon.com") ∧
    is_domain_excluded "Amazon.com" ["amazon.com"] = false := by
  constructor
  · decide
  · rfl

/-- C3 (amended): a domain is excluded iff it equals some negative domain
exactly or ends with `"."` followed by that negative domain, with the domain
compared case-sensitively as received (only the negative list is
lower-cased at parse time); a domain that merely contains a negative domain
as a substring is not excluded.  In particular `"shop.amazon.com"` and
`"amazon.com"` are excluded for the list `["amazon.com"]` and
`"notamazon.com"` is not. -/
theorem c3_domain_excluded :
    (∀ (domain : String) (neg_doms : List String),
      is_domain_excluded domain neg_doms = true ↔
        ∃ nd ∈ neg_doms, domain = nd ∨ ("." ++ nd).data <:+ domain.data) ∧
    is_domain_excluded "shop.amazon.com" ["amazon.com"] = true ∧
    is_domain_excluded "amazon.com" ["amazon.com"] = true ∧
    is_domain_excluded "notamazon.com" ["amazon.com"] = false := by
  refine ⟨?_, rfl, rfl, rfl⟩
  intro domain neg_doms
  have hS : ∀ l₁ l₂ : List Char, l₁.isSuffixOf l₂ = true ↔ l₁ <:+ l₂ := by
    intro l₁ l₂
    simp [List.isSuffixOf]
  simp [is_domain_excluded, List.any_eq_true, hS]

/-- Concrete instantiation of `c3_domain_excluded`: the subdomain
`"shop.amazon.com"` matches by the strict-suffix rule. -/
theorem c3_domain_excluded_witness :
    ∃ nd ∈ ["amazon.com"],
      "shop.amazon.com" = nd ∨ ("." ++ nd).data <:+ "shop.amazon.com".data :=
  (c3_domain_excluded.1 "shop.amazon.com" ["amazon.com"]).mp rfl

/-! ### Claim C9 — batch-failure isolation -/

theorem runBatches_aux (volume_map : List (String × ℕ)) (neg_doms : List String)
    (fetched : List (Option (List (Option TaskResult)))) (st : AggState) :
    fetched.foldl
        (fun st ob =>
          match ob with
          | none => st
          | some b => processBatch volume_map neg_doms st b) st
      = (fetched.filterMap id).foldl (processBatch volume_map neg_doms) st := by
  induction fetched generalizing st with
  | nil => rfl
  | cons ob t ih =>
    cases ob with
    | none => simp only [List.foldl_cons, List.filterMap_cons]; exact ih st
    | some b => simp only [List.foldl_cons, List.filterMap_cons]; exact ih _

/-- C9: a failed batch fetch (a `None` response) is skipped and the loop
continues: the aggregate over a fetch list with failures equals the
aggregate over just its successful batches, in order; in particular a
failure of batch 2 of 3 yields the aggregate over batches 1 and 3. -/
theorem c9_batch_isolation :
    ∀ (volume_map : List (String × ℕ)) (neg_doms : List String)
      (fetched : List (Option (List (Option TaskResult)))),
      runBatches volume_map neg_doms fetched
          = aggBatches volume_map neg_doms (fetched.filterMap id) ∧
      ∀ b1 b3 : List (Option TaskResult),
        runBatches volume_map neg_doms [some b1, none, some b3]
            = aggBatches volume_map neg_doms [b1, b3] := by
  intro volume_map neg_doms fetched
  constructor
  · exact runBatches_aux volume_map neg_doms fetched initAgg
  · intro b1 b3
    exact runBatches_aux volume_map neg_doms [some b1, none, some b3] initAgg

/-- Concrete instantiation of `c9_batch_isolation`: one successful and one
failed batch. -/
theorem c9_batch_isolation_witness :
    runBatches [("k", 100)] []
        [some [some { keyword := "k", items := [] }], none]
      = aggBatches [("k", 100)] []
        ([some [some { keyword := "k", items := [] }], none].filterMap id) :=
  (c9_batch_isolation [("k", 100)] []
    [some [some { keyword := "k", items := [] }], none]).1

/-! ### Claim C10 — session reset -/

theorem clearLoop_eq_filter {β : Type} (ks : List String) (s : List (String × β)) :
    ks.foldl (fun acc k => if k == "user" || k == "pass" then acc else delD acc k) s
      = s.filter
          (fun p => (p.fst == "user" || p.fst == "pass") || !(ks.contains p.fst)) := by
  induction ks generalizing s with
  | nil => simp
  | cons k ks ih =>
    simp only [List.foldl_cons]
    by_cases hk : (k == "user" || k == "pass") = true
    · rw [if_pos hk, ih]
      apply List.filter_congr
      intro p hp
      by_cases hpk : (p.fst == k) = true
      · have hpe : p.fst = k := eq_of_beq hpk
        simp [hpe, hk]
      · have hne : ¬ p.fst = k := by
          intro h
          exact hpk (by rw [h]; exact beq_self_eq_true k)
        simp [List.contains_cons, hpk, hne]
    · rw [if_neg hk, ih]
      rw [Bool.not_eq_true] at hk
      simp only [delD]
      rw [List.filter_filter]
      apply List.filter_congr
      intro p hp
      by_cases hpk : (p.fst == k) = true
      · have hpe : p.fst = k := eq_of_beq hpk
        simp [hpk, hpe, hk, List.contains_cons]
      · have hne : ¬ p.fst = k := by
          intro h
          exact hpk (by rw [h]; exact beq_self_eq_true k)
        simp [List.contains_cons, hpk, hne]

theorem lookupD_filter_keyTrue {β : Type} (f : String → Bool)
    (s : List (String × β)) (k : String) (hf : f k = true) :
    lookupD (s.filter (fun p => f p.fst)) k = lookupD s k := by
  induction s with
  | nil => rfl
  | cons q qs ih =>
    by_cases hq : f q.fst = true
    · simp only [List.filter_cons, hq, if_true]
      by_cases hqk : (q.fst == k) = true
      · simp [lookupD, List.find?, hqk]
      · simp only [lookupD, List.find?, hqk]
        exact ih
    · have hqk : (q.fst == k) = false := by
        rw [beq_eq_false_iff_ne]
        intro h
        rw [h] at hq
        exact hq hf
      simp only [List.filter_cons, hq, Bool.false_eq_true, if_false]
      rw [ih]
      simp [lookupD, List.find?, hqk]

/-- C10: the Start-New-Analysis handler keeps exactly the session entries
keyed `'user'` and `'pass'` (their values and order untouched) and deletes
every other entry, so no analysis data survives into the new session. -/
theorem c10_start_new_analysis :
    ∀ (β : Type) (s : List (String × β)),
      startNewAnalysis s
          = s.filter (fun p => p.fst == "user" || p.fst == "pass") ∧
      lookupD (startNewAnalysis s) "user" = lookupD s "user" ∧
      lookupD (startNewAnalysis s) "pass" = lookupD s "pass" ∧
      ∀ p ∈ startNewAnalysis s, p.fst = "user" ∨ p.fst = "pass" := by
  intro β s
  have hmain : startNewAnalysis s
      = s.filter (fun p => p.fst == "user" || p.fst == "pass") := by
    rw [startNewAnalysis, clearLoop_eq_filter]
    apply List.filter_congr
    intro p hp
    have hm : p.fst ∈ s.map Prod.fst := List.mem_map.mpr ⟨p, hp, rfl⟩
    have hc : (s.map Prod.fst).contains p.fst = true := by simpa using hm
    rw [hc]
    simp
  refine ⟨hmain, ?_, ?_, ?_⟩
  · rw [hmain]
    exact lookupD_filter_keyTrue (fun x => x == "user" || x == "pass") s "user" rfl
  · rw [hmain]
    exact lookupD_filter_keyTrue (fun x => x == "user" || x == "pass") s "pass" rfl
  · intro p hp
    rw [hmain] at hp
    have h2 := (List.mem_filter.mp hp).2
    rcases Bool.or_eq_true_iff.mp h2 with h | h
    · exact Or.inl (eq_of_beq h)
    · exact Or.inr (eq_of_beq h)

/-- Concrete instantiation of `c10_start_new_analysis`: a four-entry session
keeps only the credential entries. -/
theorem c10_start_new_analysis_witness :
    startNewAnalysis
        [("user", "u"), ("config", "c"), ("pass", "p"), ("keywords_df", "k")]
      = List.filter (fun p => p.fst == "user" || p.fst == "pass")
        [("user", "u"), ("config", "c"), ("pass", "p"), ("keywords_df", "k")] :=
  (c10_start_new_analysis String
    [("user", "u"), ("config", "c"), ("pass", "p"), ("keywords_df", "k")]).1

/-! ### Claim C2 — zero-total report -/

theorem length_addRank (l : List (String × ℚ × Option ℚ)) :
    (addRank l).length = l.length := by
  simp [addRank, List.enum_length]

/-- C2 counterexample: a non-empty domain-traffic mapping whose traffic
values sum to 0 does not produce an empty row sequence — one row per domain
is produced (with an undefined share from the `0/0` division). -/
theorem c2_counterexample :
    (([("example.com", (0 : ℚ))].map (fun p => p.snd)).sum = 0) ∧
    reportSection [("example.com", 0)] 0 ≠ [] := by
  constructor
  · simp
  · decide

/-- C2 (amended): with `total_market_traffic = 0` no division error occurs:
an empty traffic mapping yields an empty report (the results section is
skipped for a falsy dict), while a non-empty all-zero mapping yields exactly
one row per domain whose share-of-voice is undefined (`none`, the float
NaN), not an empty sequence. -/
theorem c2_zero_total_report :
    ∀ traffic_data : List (String × ℚ),
      (traffic_data.isEmpty = true → reportSection traffic_data 0 = []) ∧
      (reportSection traffic_data 0).length = traffic_data.length ∧
      ∀ r ∈ reportSection traffic_data 0, r.share = none := by
  intro td
  refine ⟨?_, ?_, ?_⟩
  · intro h
    simp [reportSection, h]
  · by_cases h : td.isEmpty = true
    · rw [List.isEmpty_iff] at h
      subst h
      rfl
    · simp only [reportSection, h, Bool.false_eq_true, if_false]
      rw [length_addRank, length_sortDescBy]
      simp [shareRows]
  · intro r hr
    by_cases h : td.isEmpty = true
    · simp [reportSection, h] at hr
    · simp only [reportSection, h, Bool.false_eq_true, if_false, addRank] at hr
      obtain ⟨q, hq, hqr⟩ := List.mem_map.mp hr
      have hq2 : q.snd ∈ sortDescBy (fun q => q.snd.fst) (shareRows td 0) :=
        List.snd_mem_of_mem_enum hq
      rw [mem_sortDescBy] at hq2
      obtain ⟨p, _, hpq⟩ := List.mem_map.mp hq2
      have hshare : q.snd.snd.snd = none := by
        rw [← hpq]
        simp
      rw [← hqr]
      exact hshare

/-- Concrete instantiation of `c2_zero_total_report`: a two-domain all-zero
mapping yields two rows. -/
theorem c2_zero_total_report_witness :
    (reportSection [("a.com", 0), ("b.com", 0)] 0).length
      = ([("a.com", (0 : ℚ)), ("b.com", 0)]).length :=
  (c2_zero_total_report [("a.com", 0), ("b.com", 0)]).2.1

/-! ### Claims C4 and C6 — the keyword merge -/

theorem acceptedAll_nil (negatives : List String) (k : String) :
    acceptedAll negatives [] k = [] := rfl

theorem acceptedAll_cons (negatives : List String) (s : SourceItems)
    (t : List SourceItems) (k : String) :
    acceptedAll negatives (s :: t) k
      = acceptedVols negatives k s ++ acceptedAll negatives t k := rfl

theorem combineO_append (o : Option ℕ) (vs ws : List ℕ) :
    combineO o (vs ++ ws) = combineO (combineO o vs) ws := by
  simp [combineO, List.foldl_append]

theorem combineO_some (w : ℕ) (vs : List ℕ) :
    combineO (some w) vs = some (vs.foldl Nat.max w) := by
  induction vs generalizing w with
  | nil => rfl
  | cons v t ih => exact ih (Nat.max w v)

theorem combineO_none_cons (v : ℕ) (t : List ℕ) :
    combineO none (v :: t) = some (t.foldl Nat.max v) :=
  combineO_some v t

theorem self_le_foldl_max (vs : List ℕ) (w : ℕ) : w ≤ vs.foldl Nat.max w := by
  induction vs generalizing w with
  | nil => exact Nat.le_refl w
  | cons v t ih => exact Nat.le_trans (Nat.le_max_left w v) (ih (Nat.max w v))

theorem mem_le_foldl_max (vs : List ℕ) (w a : ℕ) (h : a ∈ vs) :
    a ≤ vs.foldl Nat.max w := by
  induction vs generalizing w with
  | nil => simp at h
  | cons v t ih =>
    rcases List.mem_cons.mp h with h2 | h2
    · subst h2
      exact Nat.le_trans (Nat.le_max_right w a) (self_le_foldl_max t (Nat.max w a))
    · exact ih (Nat.max w v) h2

theorem lookupD_stepVol (negatives : List String) (m : List (String × ℕ))
    (o : Obs) (k : String) :
    lookupD (stepVol negatives m o) k
      = if (acceptsVol negatives o && (o.keyword == k)) = true then
          some (updMax (lookupD m k) o.search_volume)
        else lookupD m k := by
  by_cases hA : acceptsVol negatives o = true
  · by_cases hk : (o.keyword == k) = true
    · have hke : o.keyword = k := eq_of_beq hk
      rw [if_pos (show (acceptsVol negatives o && (o.keyword == k)) = true by
        rw [hA, hk]; rfl)]
      unfold stepVol
      rw [if_pos hA, ← hke]
      split
      · rename_i hL
        rw [lookupD_setD, if_pos rfl, hL]
        rfl
      · rename_i w hL
        rw [hL]
        by_cases hlt : w < o.search_volume
        · rw [if_pos hlt, lookupD_setD, if_pos rfl]
          simp [updMax, Nat.max_eq_right (Nat.le_of_lt hlt)]
        · rw [if_neg hlt, hL]
          simp [updMax, Nat.max_eq_left (Nat.le_of_not_lt hlt)]
    · have hke : ¬ o.keyword = k := fun h => hk (by rw [h]; exact beq_self_eq_true k)
      rw [if_neg (show ¬ (acceptsVol negatives o && (o.keyword == k)) = true by
        intro hc
        exact hk (Bool.and_elim_right hc))]
      unfold stepVol
      rw [if_pos hA]
      split
      · rename_i hL
        rw [lookupD_setD, if_neg (fun h => hke h.symm)]
      · rename_i w hL
        by_cases hlt : w < o.search_volume
        · rw [if_pos hlt, lookupD_setD, if_neg (fun h => hke h.symm)]
        · rw [if_neg hlt]
  · have hc : (acceptsVol negatives o && (o.keyword == k)) = false := by
      rw [Bool.not_eq_true] at hA
      rw [hA]
      rfl
    rw [hc]
    simp only [Bool.false_eq_true, if_false]
    unfold stepVol
    rw [if_neg (by rw [Bool.not_eq_true]; rw [Bool.not_eq_true] at hA; exact hA)]
theorem lookupD_stepAuto (negatives : List String) (m : List (String × ℕ))
    (k0 k : String) :
    lookupD (stepAuto negatives m k0) k
      = if (acceptsAuto negatives k0 && (k0 == k)) = true then
          some (updMax (lookupD m k) 0)
        else lookupD m k := by
  by_cases hA : acceptsAuto negatives k0 = true
  · by_cases hk : (k0 == k) = true
    · have hke : k0 = k := eq_of_beq hk
      rw [if_pos (show (acceptsAuto negatives k0 && (k0 == k)) = true by
        rw [hA, hk]; rfl)]
      unfold stepAuto
      rw [← hke]
      cases hL : lookupD m k0 with
      | none =>
        rw [if_pos (by rw [hA]; rfl)]
        rw [lookupD_setD, if_pos rfl]
        rfl
      | some w =>
        rw [if_neg (by rw [hA]; simp)]
        simp [updMax, Nat.max_eq_left (Nat.zero_le w), hL]
    · have hke : ¬ k0 = k := fun h => hk (by rw [h]; exact beq_self_eq_true k)
      rw [if_neg (show ¬ (acceptsAuto negatives k0 && (k0 == k)) = true by
        intro hc
        exact hk (Bool.and_elim_right hc))]
      unfold stepAuto
      by_cases hN : (lookupD m k0).isNone = true
      · rw [if_pos (by rw [hA, hN]; rfl)]
        rw [lookupD_setD, if_neg (fun h => hke h.symm)]
      · rw [if_neg (by intro hc; exact hN (Bool.and_elim_right hc))]
  · have hc : (acceptsAuto negatives k0 && (k0 == k)) = false := by
      rw [Bool.not_eq_true] at hA
      rw [hA]
      rfl
    rw [hc]
    simp only [Bool.false_eq_true, if_false]
    unfold stepAuto
    rw [if_neg (by
      intro hc2
      rw [Bool.not_eq_true] at hA
      rw [hA] at hc2
      exact absurd hc2 (by simp))]
theorem lookupD_foldVol (negatives : List String) (items : List Obs)
    (m : List (String × ℕ)) (k : String) :
    lookupD (items.foldl (stepVol negatives) m) k
      = combineO (lookupD m k) (acceptedVols negatives k (.vol items)) := by
  induction items generalizing m with
  | nil => rfl
  | cons o t ih =>
    simp only [List.foldl_cons]
    rw [ih]
    simp only [acceptedVols, List.filter_cons]
    by_cases h : (acceptsVol negatives o && (o.keyword == k)) = true
    · rw [lookupD_stepVol, if_pos h]
      simp only [h, if_true, List.map_cons]
      rfl
    · rw [lookupD_stepVol, if_neg h]
      simp only [h, Bool.false_eq_true, if_false]

theorem lookupD_foldAuto (negatives : List String) (kws : List String)
    (m : List (String × ℕ)) (k : String) :
    lookupD (kws.foldl (stepAuto negatives) m) k
      = combineO (lookupD m k) (acceptedVols negatives k (.auto kws)) := by
  induction kws generalizing m with
  | nil => rfl
  | cons k0 t ih =>
    simp only [List.foldl_cons]
    rw [ih]
    simp only [acceptedVols, List.filter_cons]
    by_cases h : (acceptsAuto negatives k0 && (k0 == k)) = true
    · rw [lookupD_stepAuto, if_pos h]
      simp only [h, if_true, List.map_cons]
      rfl
    · rw [lookupD_stepAuto, if_neg h]
      simp only [h, Bool.false_eq_true, if_false]

theorem lookupD_mergeSource (negatives : List String) (m : List (String × ℕ))
    (s : SourceItems) (k : String) :
    lookupD (mergeSource negatives m s) k
      = combineO (lookupD m k) (acceptedVols negatives k s) := by
  cases s with
  | vol items => exact lookupD_foldVol negatives items m k
  | auto kws => exact lookupD_foldAuto negatives kws m k

theorem lookupD_foldSources (negatives : List String) (sources : List SourceItems)
    (m : List (String × ℕ)) (k : String) :
    lookupD (sources.foldl (mergeSource negatives) m) k
      = combineO (lookupD m k) (acceptedAll negatives sources k) := by
  induction sources generalizing m with
  | nil => rfl
  | cons s t ih =>
    simp only [List.foldl_cons]
    rw [ih, lookupD_mergeSource, acceptedAll_cons, combineO_append]

theorem lookupD_mergeAll (negatives : List String) (sources : List SourceItems)
    (k : String) :
    lookupD (mergeAll negatives sources) k
      = combineO none (acceptedAll negatives sources k) :=
  lookupD_foldSources negatives sources [] k

theorem nodup_keys_stepVol (negatives : List String) (m : List (String × ℕ))
    (o : Obs) (h : (m.map Prod.fst).Nodup) :
    ((stepVol negatives m o).map Prod.fst).Nodup := by
  unfold stepVol
  split
  · split
    · exact nodup_keys_setD m o.keyword o.search_volume h
    · split
      · exact nodup_keys_setD m o.keyword o.search_volume h
      · exact h
  · exact h

theorem nodup_keys_stepAuto (negatives : List String) (m : List (String × ℕ))
    (k : String) (h : (m.map Prod.fst).Nodup) :
    ((stepAuto negatives m k).map Prod.fst).Nodup := by
  unfold stepAuto
  split
  · exact nodup_keys_setD m k 0 h
  · exact h

theorem nodup_keys_mergeSource (negatives : List String) (s : SourceItems) :
    ∀ (m : List (String × ℕ)), (m.map Prod.fst).Nodup →
      ((mergeSource negatives m s).map Prod.fst).Nodup := by
  cases s with
  | vol items =>
    induction items with
    | nil => intro m h; exact h
    | cons o t ih =>
      intro m h
      exact ih (stepVol negatives m o) (nodup_keys_stepVol negatives m o h)
  | auto kws =>
    induction kws with
    | nil => intro m h; exact h
    | cons k0 t ih =>
      intro m h
      exact ih (stepAuto negatives m k0) (nodup_keys_stepAuto negatives m k0 h)

theorem nodup_keys_mergeAll (negatives : List String) (sources : List SourceItems) :
    ((mergeAll negatives sources).map Prod.fst).Nodup := by
  suffices h : ∀ (m : List (String × ℕ)), (m.map Prod.fst).Nodup →
      (((sources.foldl (mergeSource negatives) m)).map Prod.fst).Nodup by
    exact h [] (by simp)
  induction sources with
  | nil => intro m h; exact h
  | cons s t ih =>
    intro m h
    exact ih (mergeSource negatives m s) (nodup_keys_mergeSource negatives s m h)

theorem is_clean_iff (negatives : List String) (text : String) :
    is_clean negatives text = true ↔
      ∀ neg ∈ negatives, ¬ neg.data <:+: (lowerStr text).data := by
  simp [is_clean, containsSub, List.all_eq_true]

theorem clean_of_mem_acceptedVols (negatives : List String) (k : String)
    (s : SourceItems) (a : ℕ) (h : a ∈ acceptedVols negatives k s) :
    is_clean negatives k = true := by
  cases s with
  | vol items =>
    simp only [acceptedVols] at h
    obtain ⟨o, ho, hoa⟩ := List.mem_map.mp h
    have h2 := (List.mem_filter.mp ho).2
    have hAcc : acceptsVol negatives o = true := Bool.and_elim_left h2
    have hk : o.keyword = k := eq_of_beq (Bool.and_elim_right h2)
    have hc : is_clean negatives o.keyword = true := Bool.and_elim_right hAcc
    rw [← hk]
    exact hc
  | auto kws =>
    simp only [acceptedVols] at h
    obtain ⟨s0, hs0, hsa⟩ := List.mem_map.mp h
    have h2 := (List.mem_filter.mp hs0).2
    have hAcc : acceptsAuto negatives s0 = true := Bool.and_elim_left h2
    have hk : s0 = k := eq_of_beq (Bool.and_elim_right h2)
    have hc : is_clean negatives s0 = true := Bool.and_elim_right hAcc
    rw [← hk]
    exact hc

theorem mem_acceptedAll (negatives : List String) (sources : List SourceItems)
    (k : String) (a : ℕ) :
    a ∈ acceptedAll negatives sources k ↔
      ∃ s ∈ sources, a ∈ acceptedVols negatives k s := by
  induction sources with
  | nil => simp [acceptedAll_nil]
  | cons s t ih =>
    rw [acceptedAll_cons]
    simp only [List.mem_append, ih, List.mem_cons]
    constructor
    · rintro (h | ⟨s2, hs2, ha2⟩)
      · exact ⟨s, Or.inl rfl, h⟩
      · exact ⟨s2, Or.inr hs2, ha2⟩
    · rintro ⟨s2, hs2 | hs2, ha2⟩
      · subst hs2
        exact Or.inl ha2
      · exact Or.inr ⟨s2, hs2, ha2⟩

theorem exists_accepted_of_volOffers (negatives : List String) (k : String)
    (s : SourceItems) (h : volOffers negatives k s = true) :
    ∃ a, a ∈ acceptedVols negatives k s ∧ 10 ≤ a := by
  cases s with
  | vol items =>
    simp only [volOffers] at h
    obtain ⟨o, ho, hpred⟩ := List.any_eq_true.mp h
    refine ⟨o.search_volume, ?_, ?_⟩
    · simp only [acceptedVols]
      exact List.mem_map.mpr ⟨o, List.mem_filter.mpr ⟨ho, hpred⟩, rfl⟩
    · have hAcc : acceptsVol negatives o = true := Bool.and_elim_left hpred
      exact of_decide_eq_true (Bool.and_elim_right (Bool.and_elim_left hAcc))
  | auto kws => simp [volOffers] at h

theorem offer_of_mem_acceptedVols (negatives : List String) (k : String)
    (s : SourceItems) (a : ℕ) (h : a ∈ acceptedVols negatives k s) :
    volOffers negatives k s = true ∨ autoOffers negatives k s = true := by
  cases s with
  | vol items =>
    simp only [acceptedVols] at h
    obtain ⟨o, ho, hoa⟩ := List.mem_map.mp h
    have hf := List.mem_filter.mp ho
    exact Or.inl (List.any_eq_true.mpr ⟨o, hf.1, hf.2⟩)
  | auto kws =>
    simp only [acceptedVols] at h
    obtain ⟨s0, hs0, hsa⟩ := List.mem_map.mp h
    have hf := List.mem_filter.mp hs0
    exact Or.inr (List.any_eq_true.mpr ⟨s0, hf.1, hf.2⟩)

/-- C6: the volume recorded for a keyword in the merged mapping equals the
maximum volume over all observations of that keyword that the sources
contributed (observations rejected by the volume/cleanliness filters never
reach the merge), and appending further sources — including autocomplete
responses, which only offer volume 0 — never lowers a recorded volume. -/
theorem c6_merge_max_volume :
    (∀ (negatives : List String) (sources : List SourceItems) (k : String) (v : ℕ),
      lookupD (mergeAll negatives sources) k = some v →
        acceptedAll negatives sources k ≠ [] ∧
        v = (acceptedAll negatives sources k).foldl Nat.max 0) ∧
    (∀ (negatives : List String) (s1 s2 : List SourceItems) (k : String) (v : ℕ),
      lookupD (mergeAll negatives s1) k = some v →
        ∃ v2, lookupD (mergeAll negatives (s1 ++ s2)) k = some v2 ∧ v ≤ v2) := by
  constructor
  · intro negs sources k v h
    rw [lookupD_mergeAll] at h
    cases hacc : acceptedAll negs sources k with
    | nil =>
      rw [hacc] at h
      simp [combineO] at h
    | cons a t =>
      rw [hacc, combineO_none_cons] at h
      have hv : t.foldl Nat.max a = v := Option.some.inj h
      refine ⟨by simp [hacc], ?_⟩
      rw [List.foldl_cons, show Nat.max 0 a = a from Nat.zero_max a, ← hv]
  · intro negs s1 s2 k v h
    have h2 : lookupD (mergeAll negs (s1 ++ s2)) k
        = combineO (some v) (acceptedAll negs s2 k) := by
      rw [mergeAll, List.foldl_append, lookupD_foldSources]
      rw [show List.foldl (mergeSource negs) [] s1 = mergeAll negs s1 from rfl, h]
    rw [combineO_some] at h2
    exact ⟨(acceptedAll negs s2 k).foldl Nat.max v, h2, self_le_foldl_max _ v⟩

/-- Concrete instantiation of `c6_merge_max_volume`: two sources reporting
500 and 800 for the same keyword merge to 800, the maximum. -/
theorem c6_merge_max_volume_witness :
    acceptedAll []
        [SourceItems.vol [{ keyword := "shoes", search_volume := 500 }],
         SourceItems.vol [{ keyword := "shoes", search_volume := 800 }]] "shoes" ≠ [] ∧
    800 = (acceptedAll []
        [SourceItems.vol [{ keyword := "shoes", search_volume := 500 }],
         SourceItems.vol [{ keyword := "shoes", search_volume := 800 }]]
        "shoes").foldl Nat.max 0 :=
  c6_merge_max_volume.1 []
    [SourceItems.vol [{ keyword := "shoes", search_volume := 500 }],
     SourceItems.vol [{ keyword := "shoes", search_volume := 800 }]]
    "shoes" 800 (by decide)

/-- C4: every keyword in the final merged keyword set is clean (no negative
term is an infix of its lower-cased text — the client-side filter is applied
inside the merge for every source, including ones for which server-side
filtering was requested) and has volume at least 10, except that a volume of
exactly 0 is kept only with autocomplete enabled for a keyword offered by an
autocomplete response and by no volume-source observation that passes the
filters; keyword texts are unique within the set. -/
theorem c4_keywordset_invariants :
    ∀ (negatives : List String) (sources : List SourceItems) (useAuto : Bool),
      ((finalKeywords negatives sources useAuto).map Prod.fst).Nodup ∧
      ∀ p ∈ finalKeywords negatives sources useAuto,
        (∀ neg ∈ negatives, ¬ neg.data <:+: (lowerStr p.fst).data) ∧
        (10 ≤ p.snd ∨
          (p.snd = 0 ∧ useAuto = true ∧
            (∃ s ∈ sources, autoOffers negatives p.fst s = true) ∧
            (∀ s ∈ sources, volOffers negatives p.fst s = false))) := by
  intro negs sources useAuto
  have hnodupM := nodup_keys_mergeAll negs sources
  have hnodupF : (((mergeAll negs sources).filter
      (fun p => decide (10 ≤ p.snd) || (p.snd == 0 && useAuto))).map Prod.fst).Nodup :=
    List.Nodup.sublist ((List.filter_sublist _).map Prod.fst) hnodupM
  constructor
  · rw [finalKeywords]
    exact (((sortDescBy_perm _ _).map Prod.fst).nodup_iff).mpr hnodupF
  · intro p hp
    rw [finalKeywords, mem_sortDescBy] at hp
    have hp2 := List.mem_filter.mp hp
    have hlook : lookupD (mergeAll negs sources) p.fst = some p.snd :=
      lookupD_eq_some_of_mem _ p hnodupM hp2.1
    rw [lookupD_mergeAll] at hlook
    cases hacc : acceptedAll negs sources p.fst with
    | nil =>
      rw [hacc] at hlook
      simp [combineO] at hlook
    | cons a t =>
      rw [hacc, combineO_none_cons] at hlook
      have hv : t.foldl Nat.max a = p.snd := Option.some.inj hlook
      have haccmem : a ∈ acceptedAll negs sources p.fst := by
        rw [hacc]
        exact List.mem_cons_self a t
      obtain ⟨s, hs, has⟩ := (mem_acceptedAll negs sources p.fst a).mp haccmem
      have hclean : is_clean negs p.fst = true :=
        clean_of_mem_acceptedVols negs p.fst s a has
      refine ⟨(is_clean_iff negs p.fst).mp hclean, ?_⟩
      rcases Bool.or_eq_true_iff.mp hp2.2 with h10 | h0
      · exact Or.inl (of_decide_eq_true h10)
      · have hz : p.snd = 0 := eq_of_beq (Bool.and_elim_left h0)
        have hu : useAuto = true := Bool.and_elim_right h0
        have hnoVol : ∀ s2 ∈ sources, volOffers negs p.fst s2 = false := by
          intro s2 hs2
          cases hvo : volOffers negs p.fst s2 with
          | false => rfl
          | true =>
            exfalso
            obtain ⟨b, hb, hb10⟩ :=
              exists_accepted_of_volOffers negs p.fst s2 hvo
            have hbAll : b ∈ acceptedAll negs sources p.fst :=
              (mem_acceptedAll negs sources p.fst b).mpr ⟨s2, hs2, hb⟩
            rw [hacc] at hbAll
            have hble : b ≤ t.foldl Nat.max a := by
              rcases List.mem_cons.mp hbAll with hba | hbt
              · subst hba
                exact self_le_foldl_max t b
              · exact mem_le_foldl_max t a b hbt
            rw [hv, hz] at hble
            omega
        have hauto : ∃ s2 ∈ sources, autoOffers negs p.fst s2 = true := by
          rcases offer_of_mem_acceptedVols negs p.fst s a has with hvol | hao
          · rw [hnoVol s hs] at hvol
            exact absurd hvol (by simp)
          · exact ⟨s, hs, hao⟩
        exact Or.inr ⟨hz, hu, hauto, hnoVol⟩

/-- Concrete instantiation of `c4_keywordset_invariants`: a merge of one
volume source and one autocomplete source with a negative term. -/
theorem c4_keywordset_invariants_witness :
    ((finalKeywords ["google"]
        [SourceItems.vol [{ keyword := "shoes", search_volume := 500 },
                          { keyword := "google shoes", search_volume := 900 }],
         SourceItems.auto ["shoes kids"]] true).map Prod.fst).Nodup :=
  (c4_keywordset_invariants ["google"]
    [SourceItems.vol [{ keyword := "shoes", search_volume := 500 },
                      { keyword := "google shoes", search_volume := 900 }],
     SourceItems.auto ["shoes kids"]] true).1

end TopicAuthority
